import Mathlib

/-!
Shallow embedding of the cosmgroups storage layer (src/state.rs,
src/new_state.rs, src/contract.rs) over an ordered byte-keyed key-value
store, together with theorems settling the specification claims.

Byte strings are modelled as `List Nat` (each entry a byte value), the
ordered backing store (`MockStorage`, a BTreeMap over byte keys) as an
association list kept sorted by byte-lexicographic key order, and `u64`
values as `Nat` (the group counter and group ids stay far below `2^64`
in every reachable state, so machine overflow does not arise).
-/

namespace Cosmgroups

/-- A byte string: the keys and encoded key parts of the store. -/
abbrev Bytes := List Nat

/-- Byte-lexicographic strict order on byte strings, as used by the ordered
backing store (BTreeMap over `Vec<u8>` keys): a strict prefix sorts first. -/
def bytesLt : Bytes → Bytes → Bool
  | _, [] => false
  | [], _ :: _ => true
  | a :: as, b :: bs =>
    if a < b then true
    else if a = b then bytesLt as bs
    else false

/-- Boolean test that the first byte string is a prefix of the second. -/
def pfxOf : Bytes → Bytes → Bool
  | [], _ => true
  | _ :: _, [] => false
  | a :: as, b :: bs => if a = b then pfxOf as bs else false

/-- A key-value table over byte keys: an association list kept sorted by
`bytesLt`, modelling one namespace of the ordered backing store. -/
abbrev KV (V : Type) := List (Bytes × V)

/-- Look up a key (`Map::may_load`): first (only) binding with that key. -/
def kvGet {V : Type} : KV V → Bytes → Option V
  | [], _ => none
  | (k', v') :: rest, k => if k = k' then some v' else kvGet rest k

/-- Insert or overwrite a binding (`Map::save`), keeping the list sorted. -/
def kvSet {V : Type} : KV V → Bytes → V → KV V
  | [], k, v => [(k, v)]
  | (k', v') :: rest, k, v =>
    if k = k' then (k, v) :: rest
    else if bytesLt k k' then (k, v) :: (k', v') :: rest
    else (k', v') :: kvSet rest k v

/-- Remove a binding (`Map::remove`). -/
def kvDel {V : Type} : KV V → Bytes → KV V
  | [], _ => []
  | (k', v') :: rest, k =>
    if k = k' then kvDel rest k else (k', v') :: kvDel rest k

/-- Big-endian fixed-width encoding of a `u64` key (`U64Key::joined_key`),
eight bytes, most significant first. -/
def u64_be (n : Nat) : Bytes :=
  [n / 2 ^ 56 % 256, n / 2 ^ 48 % 256, n / 2 ^ 40 % 256, n / 2 ^ 32 % 256,
   n / 2 ^ 24 % 256, n / 2 ^ 16 % 256, n / 2 ^ 8 % 256, n % 256]

/-- Numeric value of a big-endian digit string (base 256). -/
def beVal : Bytes → Nat
  | [] => 0
  | d :: ds => d * 256 ^ ds.length + beVal ds

/-- Bytes of a string key (`Addr::as_ref().joined_key()`: the raw UTF-8
bytes of the address string; all addresses used are ASCII). -/
def strBytes (s : String) : Bytes := s.data.map Char.toNat

/-- Two-byte big-endian length prefix put before every non-terminal
component of a composite store key (`namespaces_with_key` in the storage
library): the composed index key is `lenPfx (encode value) ++ pk`. -/
def lenPfx (b : Bytes) : Bytes := b.length / 256 % 256 :: b.length % 256 :: b

/-- Composite key of one secondary-index entry: length-prefixed encoded
attribute value, then the raw primary key. -/
def idxKey (v pk : Bytes) : Bytes := lenPfx v ++ pk

/-! ## Data model of src/new_state.rs and src/state.rs -/

/-- `NewPerson` from src/new_state.rs (age is a `u8`). -/
structure NewPerson where
  name : String
  age : Nat
deriving DecidableEq

/-- `NewGroup` from src/new_state.rs. -/
structure NewGroup where
  name : String
deriving DecidableEq

/-- `Role` from src/new_state.rs. -/
inductive Role
  | User
  | Admin
  | SuperAdmin
deriving DecidableEq

/-- `<&Role as PrimaryKey>::key` from src/new_state.rs lines 50-62: one
single-byte segment per variant. -/
def Role.key : Role → List Bytes
  | .User => [[0]]
  | .Admin => [[1]]
  | .SuperAdmin => [[2]]

/-- `joined_key` of a `Role`: the segments of `Role.key` joined (a single
one-byte segment, so just that byte). -/
def Role.joined_key (r : Role) : Bytes := (Role.key r).flatten

/-- `NewMembership` from src/new_state.rs. -/
structure NewMembership where
  person : String
  group_id : Nat
  role : Role
deriving DecidableEq

/-! ## The indexed membership store (`memberships()` in src/new_state.rs)

The `IndexedMap` machinery itself lives in the storage library, outside this
repository; its save/remove/prefix-scan behaviour is modelled from the spec
(sections 4.3 and 4.4). Which indexes it visits, the attribute-extraction
functions and the namespaces are embedded from src/new_state.rs. -/

/-- Tags for the three declared secondary indexes of `MembershipIndexes`
(src/new_state.rs lines 64-69). -/
inductive IdxTag
  | person
  | group
  | role
deriving DecidableEq

/-- `MembershipIndexes::get_indexes` from src/new_state.rs lines 72-77:
the list of index handles the indexed store iterates over on every save
and delete. The source builds `vec![&self.person, &self.group]`. -/
def get_indexes : List IdxTag := [IdxTag.person, IdxTag.group]

/-- Encoded attribute value of a membership for each index, from the
extraction closures in `memberships()` (src/new_state.rs lines 82-96):
person uses the address bytes, group the big-endian `U64Key` of the group
id, role the joined `Role` key. -/
def idxValueBytes : IdxTag → NewMembership → Bytes
  | .person, d => strBytes d.person
  | .group, d => u64_be d.group_id
  | .role, d => d.role.joined_key

/-- Key of the index entry a membership `d` stored under primary key `pk`
produces in the index tagged `t`. -/
def idxEntryKey (t : IdxTag) (d : NewMembership) (pk : Bytes) : Bytes :=
  idxKey (idxValueBytes t d) pk

/-- State of the indexed membership store: the primary table (namespace
`membership`) and the three index tables (`membership__person`,
`membership__group`, `membership__role`), each its own namespace of the
backing store. The index tables hold a full copy of the record, as the
storage library's multi-index does. -/
structure MsStore where
  primary : KV NewMembership
  person : KV NewMembership
  group : KV NewMembership
  role : KV NewMembership
deriving DecidableEq

/-- The empty indexed membership store. -/
def MsStore.empty : MsStore := ⟨[], [], [], []⟩

/-- The index table selected by a tag. -/
def MsStore.getIdx (st : MsStore) : IdxTag → KV NewMembership
  | .person => st.person
  | .group => st.group
  | .role => st.role

/-- Modelled from the spec: `index_on_insert` (section 4.3) for one index —
write the entry `(extract d, pk)`, holding the record. -/
def idxSave (st : MsStore) (t : IdxTag) (pk : Bytes) (d : NewMembership) : MsStore :=
  match t with
  | .person => { st with person := kvSet st.person (idxEntryKey .person d pk) d }
  | .group => { st with group := kvSet st.group (idxEntryKey .group d pk) d }
  | .role => { st with role := kvSet st.role (idxEntryKey .role d pk) d }

/-- Modelled from the spec: `index_on_delete` (section 4.3) for one index —
remove the entry derived from the old record. -/
def idxRemove (st : MsStore) (t : IdxTag) (pk : Bytes) (d : NewMembership) : MsStore :=
  match t with
  | .person => { st with person := kvDel st.person (idxEntryKey .person d pk) }
  | .group => { st with group := kvDel st.group (idxEntryKey .group d pk) }
  | .role => { st with role := kvDel st.role (idxEntryKey .role d pk) }

/-- Modelled from the spec: before a save or delete, the indexed store reads
the existing record at `pk` and, when present, removes its entries from
every index returned by `get_indexes` (sections 4.3-4.4). -/
def removeOldIdx (st : MsStore) (pk : Bytes) : MsStore :=
  match kvGet st.primary pk with
  | some old => List.foldl (fun s t => idxRemove s t pk old) st get_indexes
  | none => st

/-- Modelled from the spec: `save` of the indexed store (section 4.4) —
drop the old record's entries from every registered index, insert the new
record's entries into every registered index, and write the record to the
primary table. The registered indexes are those of `get_indexes`. -/
def msSave (st : MsStore) (pk : Bytes) (d : NewMembership) : MsStore :=
  let st1 := removeOldIdx st pk
  let st2 := List.foldl (fun s t => idxSave s t pk d) st1 get_indexes
  { st2 with primary := kvSet st2.primary pk d }

/-- Modelled from the spec: `delete` of the indexed store (section 4.4) —
drop the old record's entries from every registered index, then remove the
record from the primary table. -/
def msRemove (st : MsStore) (pk : Bytes) : MsStore :=
  let st1 := removeOldIdx st pk
  { st1 with primary := kvDel st1.primary pk }

/-- Modelled from the spec: `scan_by` (section 4.3) — ascending prefix scan
of one index table over the length-prefixed encoded attribute value,
yielding `(primary key, record)` pairs. -/
def scanBy (idx : KV NewMembership) (v : Bytes) : List (Bytes × NewMembership) :=
  (idx.filter fun e => pfxOf (lenPfx v) e.1).map
    fun e => (e.1.drop (lenPfx v).length, e.2)

/-- Modelled from the spec: `query` (section 4.4) — the records returned by
a prefix scan of the named index at an encoded attribute value. -/
def queryIdx (st : MsStore) (t : IdxTag) (v : Bytes) : List NewMembership :=
  (scanBy (st.getIdx t) v).map Prod.snd

/-! ## Identifier allocator and group table (src/new_state.rs lines 14-34) -/

/-- `next_group_counter` from src/new_state.rs lines 16-20: load the
persisted `group_counter` item (0 when absent), add one, persist the sum
and return it. The pair is (returned id, new persisted counter). -/
def next_group_counter (store : Option Nat) : Nat × Option Nat :=
  let id := store.getD 0 + 1
  (id, some id)

/-- Iterated calls of `next_group_counter`, threading the persisted
counter: the state after `k` successive calls. -/
def counter_iter : Nat → Option Nat → Option Nat
  | 0, c => c
  | k + 1, c => counter_iter k (next_group_counter c).2

/-- Storage touched by `save_group`: the `group_counter` item and the
`groups` table keyed by the joined `U64Key` of the id. -/
structure GroupStore where
  group_counter : Option Nat
  groups : KV NewGroup
deriving DecidableEq

/-- `save_group` from src/new_state.rs lines 29-34: allocate the next id,
save the group under `U64Key::new(id)`, return the id with the new store. -/
def save_group (st : GroupStore) (g : NewGroup) : Nat × GroupStore :=
  let id := (next_group_counter st.group_counter).1
  (id, { group_counter := (next_group_counter st.group_counter).2,
         groups := kvSet st.groups (u64_be id) g })

/-! ## Namespaces of every declared table and index -/

/-- Namespace of `NEW_PEOPLE` (src/new_state.rs line 12). -/
def NEW_PEOPLE_NAMESPACE : String := "new_people"

/-- Namespace of `GROUP_COUNTER` (src/new_state.rs line 14). -/
def GROUP_COUNTER_NAMESPACE : String := "group_counter"

/-- Namespace of `NEW_GROUPS` (src/new_state.rs line 27). -/
def NEW_GROUPS_NAMESPACE : String := "groups"

/-- Primary namespace of `memberships()` (src/new_state.rs line 80). -/
def MEMBERSHIP_PK_NAMESPACE : String := "membership"

/-- Namespace of the person index of `memberships()` (line 85). -/
def MEMBERSHIP_PERSON_NAMESPACE : String := "membership__person"

/-- Namespace of the group index of `memberships()` (line 90). -/
def MEMBERSHIP_GROUP_NAMESPACE : String := "membership__group"

/-- Namespace of the role index of `memberships()` (line 95). -/
def MEMBERSHIP_ROLE_NAMESPACE : String := "membership__role"

/-- Namespace of `STATE` (src/state.rs line 14). -/
def STATE_NAMESPACE : String := "state"

/-- Namespace of `PEOPLE` (src/state.rs line 23). -/
def PEOPLE_NAMESPACE : String := "people"

/-- Namespace of `GROUPS` (src/state.rs line 31). -/
def GROUPS_NAMESPACE : String := "groups"

/-- Namespace of `MEMBERSHIP_STATUSES` (src/state.rs line 39). -/
def MEMBERSHIP_STATUSES_NAMESPACE : String := "membership_statuses"

/-- Namespace of `MEMBERSHIPS` (src/state.rs line 48). -/
def MEMBERSHIPS_NAMESPACE : String := "memberships"

/-- The twelve table and index declarations of the repository: seven from
src/new_state.rs (`NEW_PEOPLE`, `GROUP_COUNTER`, `NEW_GROUPS`, the
`memberships()` primary table and its three indexes) and five from
src/state.rs (`STATE`, `PEOPLE`, `GROUPS`, `MEMBERSHIP_STATUSES`,
`MEMBERSHIPS`). -/
inductive TableDecl
  | NEW_PEOPLE
  | GROUP_COUNTER
  | NEW_GROUPS
  | MEMBERSHIP_PK
  | MEMBERSHIP_PERSON
  | MEMBERSHIP_GROUP
  | MEMBERSHIP_ROLE
  | STATE
  | PEOPLE
  | GROUPS
  | MEMBERSHIP_STATUSES
  | MEMBERSHIPS
deriving DecidableEq, Fintype

/-- The namespace string each declaration is bound to. -/
def TableDecl.namespaceOf : TableDecl → String
  | .NEW_PEOPLE => NEW_PEOPLE_NAMESPACE
  | .GROUP_COUNTER => GROUP_COUNTER_NAMESPACE
  | .NEW_GROUPS => NEW_GROUPS_NAMESPACE
  | .MEMBERSHIP_PK => MEMBERSHIP_PK_NAMESPACE
  | .MEMBERSHIP_PERSON => MEMBERSHIP_PERSON_NAMESPACE
  | .MEMBERSHIP_GROUP => MEMBERSHIP_GROUP_NAMESPACE
  | .MEMBERSHIP_ROLE => MEMBERSHIP_ROLE_NAMESPACE
  | .STATE => STATE_NAMESPACE
  | .PEOPLE => PEOPLE_NAMESPACE
  | .GROUPS => GROUPS_NAMESPACE
  | .MEMBERSHIP_STATUSES => MEMBERSHIP_STATUSES_NAMESPACE
  | .MEMBERSHIPS => MEMBERSHIPS_NAMESPACE

/-! ## Contract state and reset (src/state.rs, src/contract.rs) -/

/-- `State` from src/state.rs lines 8-12 (`count` is an `i32`, `owner` an
address string). -/
structure State where
  count : Int
  owner : String
deriving DecidableEq

/-- `ContractError` variants reachable from `try_reset` (the error type
lives in src/error.rs, outside the given sources; `Unauthorized` is the
variant src/contract.rs constructs, and a load failure of the absent item
surfaces as a standard not-found error). -/
inductive ContractError
  | unauthorized
  | notFound
deriving DecidableEq

/-- `try_reset` from src/contract.rs lines 55-64, composed with
`Item::update` semantics: load the stored `State` (error when absent),
fail with `Unauthorized` leaving the store untouched when the sender is
not the owner, otherwise save the state with `count` replaced. The pair is
(call result, store after the call). -/
def try_reset (sender : String) (count : Int) (store : Option State) :
    Except ContractError Unit × Option State :=
  match store with
  | none => (Except.error ContractError.notFound, store)
  | some state =>
    if sender ≠ state.owner then (Except.error ContractError.unauthorized, some state)
    else (Except.ok (), some { state with count := count })

/-! ## Concrete scenario of the spec (section 8) and of `test_memberships` -/

/-- Membership `M1 = (addr1, G1, User)` of the scenario. -/
def membership1 : NewMembership := { person := "addr1", group_id := 1, role := Role.User }

/-- Membership `M2 = (addr2, G1, Admin)` of the scenario. -/
def membership2 : NewMembership := { person := "addr2", group_id := 1, role := Role.Admin }

/-- Membership `M1` with its role changed to `Admin`, the updated record of
the role-update scenario. -/
def membership1_admin : NewMembership :=
  { person := "addr1", group_id := 1, role := Role.Admin }

/-- Store after saving `M1` under id 1 from the empty store. -/
def ms_st1 : MsStore := msSave MsStore.empty (u64_be 1) membership1

/-- Store after additionally saving `M2` under id 2. -/
def ms_st2 : MsStore := msSave ms_st1 (u64_be 2) membership2

/-- Store after then deleting `M2`. -/
def ms_st3 : MsStore := msRemove ms_st2 (u64_be 2)

/-- Store after overwriting `M1` at id 1 with its role changed to Admin. -/
def ms_st1_updated : MsStore := msSave ms_st1 (u64_be 1) membership1_admin

/-! ## Helper lemmas -/

/-- Looking a key up right after setting it finds the stored value. -/
theorem kv_get_set {V : Type} (l : KV V) (k : Bytes) (v : V) :
    kvGet (kvSet l k v) k = some v := by
  induction l with
  | nil => simp [kvSet, kvGet]
  | cons e rest ih =>
    obtain ⟨k', v'⟩ := e
    simp only [kvSet]
    split_ifs with h1 h2
    · simp [kvGet]
    · simp [kvGet]
    · simp [kvGet, h1, ih]

/-- Writing one index entry leaves the primary table untouched. -/
theorem idxSave_primary (st : MsStore) (t : IdxTag) (pk : Bytes) (d : NewMembership) :
    (idxSave st t pk d).primary = st.primary := by
  cases t <;> rfl

/-- Removing one index entry leaves the primary table untouched. -/
theorem idxRemove_primary (st : MsStore) (t : IdxTag) (pk : Bytes) (d : NewMembership) :
    (idxRemove st t pk d).primary = st.primary := by
  cases t <;> rfl

/-- Dropping the old record's index entries leaves the primary table untouched. -/
theorem removeOldIdx_primary (st : MsStore) (pk : Bytes) :
    (removeOldIdx st pk).primary = st.primary := by
  unfold removeOldIdx
  cases kvGet st.primary pk <;>
    simp [get_indexes, idxRemove_primary]

/-- After `k` successive allocator calls starting from a persisted value
`m`, the persisted counter is `m + k`. -/
theorem counter_iter_some (k m : Nat) :
    counter_iter k (some m) = some (m + k) := by
  induction k generalizing m with
  | zero => rfl
  | succ k ih =>
    show counter_iter k (some (m + 1)) = some (m + (k + 1))
    rw [ih (m + 1)]
    congr 1
    omega

/-- Every digit of the big-endian `u64` encoding is a byte. -/
theorem u64_be_digits (n : Nat) : ∀ d ∈ u64_be n, d < 256 := by
  intro d hd
  simp only [u64_be, List.mem_cons, List.not_mem_nil, or_false] at hd
  rcases hd with h | h | h | h | h | h | h | h <;> subst h <;> omega

/-- The numeric value of the big-endian `u64` encoding recovers the number. -/
theorem beVal_u64 (n : Nat) (h : n < 2 ^ 64) : beVal (u64_be n) = n := by
  simp only [u64_be, beVal, List.length_cons, List.length_nil]
  norm_num
  omega

/-- A digit string of bytes is numerically below the power of its length. -/
theorem beVal_lt_pow (xs : Bytes) (h : ∀ d ∈ xs, d < 256) :
    beVal xs < 256 ^ xs.length := by
  induction xs with
  | nil => simp [beVal]
  | cons x xs ih =>
    have hx : x < 256 := h x (List.mem_cons_self x xs)
    have hxs : beVal xs < 256 ^ xs.length :=
      ih fun d hd => h d (List.mem_cons_of_mem x hd)
    simp only [beVal, List.length_cons]
    calc x * 256 ^ xs.length + beVal xs
        < x * 256 ^ xs.length + 256 ^ xs.length := by omega
      _ = (x + 1) * 256 ^ xs.length := by ring
      _ ≤ 256 * 256 ^ xs.length := Nat.mul_le_mul_right _ (by omega)
      _ = 256 ^ (xs.length + 1) := by ring

/-- Comparing one base-256 digit with the rest: with both tails below the
base power, the combined values order exactly by the head digit, then by
the tails. -/
theorem digit_lt_iff (x y u v B : Nat) (hu : u < B) (hv : v < B) :
    x * B + u < y * B + v ↔ x < y ∨ (x = y ∧ u < v) := by
  constructor
  · intro h
    by_cases hxy : x < y
    · exact Or.inl hxy
    · by_cases hyx : y < x
      · exfalso
        have h2 : (y + 1) * B ≤ x * B := Nat.mul_le_mul_right B (by omega)
        have h4 : (y + 1) * B = y * B + B := by ring
        linarith
      · have hxy' : x = y := by omega
        subst hxy'
        exact Or.inr ⟨rfl, by linarith⟩
  · intro h
    rcases h with h | ⟨rfl, huv⟩
    · have h2 : (x + 1) * B ≤ y * B := Nat.mul_le_mul_right B (by omega)
      have h4 : (x + 1) * B = x * B + B := by ring
      linarith
    · linarith

/-- On equal-length byte strings, the byte-lexicographic order is exactly
the numeric order of the big-endian values. -/
theorem bytesLt_iff_beVal (xs : Bytes) : ∀ ys : Bytes, xs.length = ys.length →
    (∀ d ∈ xs, d < 256) → (∀ d ∈ ys, d < 256) →
    (bytesLt xs ys = true ↔ beVal xs < beVal ys) := by
  induction xs with
  | nil =>
    intro ys hlen _ _
    cases ys with
    | nil => simp [bytesLt, beVal]
    | cons y ys => simp at hlen
  | cons x xs ih =>
    intro ys hlen hx hy
    cases ys with
    | nil => simp at hlen
    | cons y ys =>
      have hlen' : xs.length = ys.length := by simpa using hlen
      have hx' : ∀ d ∈ xs, d < 256 := fun d hd => hx d (List.mem_cons_of_mem _ hd)
      have hy' : ∀ d ∈ ys, d < 256 := fun d hd => hy d (List.mem_cons_of_mem _ hd)
      have hxlt : beVal xs < 256 ^ ys.length := by
        rw [← hlen']; exact beVal_lt_pow xs hx'
      have hylt : beVal ys < 256 ^ ys.length := beVal_lt_pow ys hy'
      have hval : beVal (x :: xs) < beVal (y :: ys) ↔
          x < y ∨ (x = y ∧ beVal xs < beVal ys) := by
        simp only [beVal, List.length_cons, hlen']
        exact digit_lt_iff x y (beVal xs) (beVal ys) (256 ^ ys.length) hxlt hylt
      rw [hval]
      simp only [bytesLt]
      split_ifs with h1 h2
      · simp [h1]
      · subst h2
        rw [ih ys hlen' hx' hy']
        constructor
        · intro h; exact Or.inr ⟨rfl, h⟩
        · rintro (h | ⟨-, h⟩)
          · omega
          · exact h
      · constructor
        · intro h; exact absurd h (by simp)
        · rintro (h | ⟨h, -⟩)
          · omega
          · exact absurd h h2

/-- `pfxOf` decides list-prefix: it is true exactly when some tail extends
the first string to the second. -/
theorem pfxOf_iff (xs : Bytes) : ∀ ys : Bytes,
    (pfxOf xs ys = true ↔ ∃ t, xs ++ t = ys) := by
  induction xs with
  | nil =>
    intro ys
    simp [pfxOf]
  | cons x xs ih =>
    intro ys
    cases ys with
    | nil =>
      simp only [pfxOf, Bool.false_eq_true, false_iff]
      rintro ⟨t, ht⟩
      exact absurd ht (by simp)
    | cons y ys =>
      simp only [pfxOf]
      split_ifs with h
      · subst h
        rw [ih ys]
        constructor
        · rintro ⟨t, rfl⟩
          exact ⟨t, rfl⟩
        · rintro ⟨t, ht⟩
          refine ⟨t, ?_⟩
          simpa using ht
      · simp only [Bool.false_eq_true, false_iff]
        rintro ⟨t, ht⟩
        simp only [List.cons_append, List.cons.injEq] at ht
        exact h ht.1

/-- Any byte string is a prefix of itself followed by anything. -/
theorem pfxOf_append (xs t : Bytes) : pfxOf xs (xs ++ t) = true :=
  (pfxOf_iff xs (xs ++ t)).mpr ⟨t, rfl⟩

/-! ## Claim theorems -/

/-- Claim C1 (refuted — the code is at fault): the index-consistency
invariant fails in the very first reachable non-empty state. Saving the
membership `(addr1, group 1, User)` under primary key `U64Key(1)` from the
empty indexed store puts the record in the primary table and gives the
person and group indexes an entry, but the role index stays empty, because
`MembershipIndexes::get_indexes` (src/new_state.rs line 74) returns only
the person and group indexes. The claim requires each of the three indexes
to hold exactly one entry for every stored membership. -/
theorem c1_role_index_not_maintained :
    kvGet ms_st1.primary (u64_be 1) = some membership1 ∧
    ms_st1.person ≠ [] ∧ ms_st1.group ≠ [] ∧ ms_st1.role = [] := by
  decide

/-- Claim C2 (refuted in its role parts — the code is at fault): in the
concrete scenario (M1 = (addr1, G1, User) under id 1, M2 = (addr2, G1,
Admin) under id 2), the group query for G1 yields [M1, M2] in ascending id
order and the person query for addr1 yields [M1], as claimed; but the role
query for Admin yields [] instead of the claimed [M2], since the role
index is never maintained. After deleting M2 the group query yields [M1]
and the role query [] (the latter holding only vacuously). -/
theorem c2_scenario_role_query_empty :
    queryIdx ms_st2 IdxTag.group (u64_be 1) = [membership1, membership2] ∧
    queryIdx ms_st2 IdxTag.person (strBytes "addr1") = [membership1] ∧
    queryIdx ms_st2 IdxTag.role (Role.joined_key Role.Admin) = [] ∧
    queryIdx ms_st3 IdxTag.group (u64_be 1) = [membership1] ∧
    queryIdx ms_st3 IdxTag.role (Role.joined_key Role.Admin) = [] := by
  decide

/-- Claim C3 (refuted — the code is at fault): overwriting the membership
stored under primary key `U64Key(1)` with its role changed from `User` to
`Admin` adds no entry for that key under `Admin` in the role index — the
role index stays empty, because the role index is absent from
`get_indexes`. The claim requires exactly one entry for the key under the
new role value after the update. -/
theorem c3_role_update_no_index_entry :
    kvGet ms_st1_updated.primary (u64_be 1) = some membership1_admin ∧
    ms_st1_updated.role = [] ∧
    queryIdx ms_st1_updated IdxTag.role (Role.joined_key Role.Admin) = [] := by
  decide

/-- Claim C4 (confirmed): the key encoding of `Role` maps `User` to the
single byte 0, `Admin` to the single byte 1 and `SuperAdmin` to the single
byte 2 (one single-byte key segment each), and is injective on the three
variants. -/
theorem c4_role_discriminants :
    Role.key Role.User = [[0]] ∧
    Role.key Role.Admin = [[1]] ∧
    Role.key Role.SuperAdmin = [[2]] ∧
    Role.joined_key Role.User = [0] ∧
    Role.joined_key Role.Admin = [1] ∧
    Role.joined_key Role.SuperAdmin = [2] ∧
    ∀ r r' : Role, Role.key r = Role.key r' → r = r' := by
  refine ⟨rfl, rfl, rfl, rfl, rfl, rfl, ?_⟩
  intro r r' h
  cases r <;> cases r' <;> simp_all [Role.key]

/-- Witness for C4: the injectivity clause applied at `User`, `User`. -/
theorem c4_role_discriminants_witness :
    Role.User = Role.User ∧ Role.key Role.User = [[0]] :=
  ⟨c4_role_discriminants.2.2.2.2.2.2 Role.User Role.User rfl,
   c4_role_discriminants.1⟩

/-- Claim C5 (confirmed): `next_group_counter` returns the persisted
counter plus one (an absent counter counting as 0), persists exactly the
returned value, and successive calls return strictly increasing
identifiers starting at 1: the call after `k` prior calls on an initially
empty store returns `k + 1`. -/
theorem c5_next_group_counter :
    (∀ c : Option Nat,
      next_group_counter c = (c.getD 0 + 1, some (c.getD 0 + 1))) ∧
    (∀ k : Nat, (next_group_counter (counter_iter k none)).1 = k + 1) := by
  constructor
  · intro c
    rfl
  · intro k
    cases k with
    | zero => rfl
    | succ k =>
      show (next_group_counter (counter_iter k (some 1))).1 = k + 1 + 1
      rw [counter_iter_some k 1]
      simp [next_group_counter]
      omega

/-- Counterexample to claim C6: the `GROUPS` table of src/state.rs and the
`NEW_GROUPS` table of src/new_state.rs are two distinct declared tables
bound to the same namespace string `"groups"`, so the claimed pairwise
disjointness of all declared table namespaces fails. -/
theorem c6_groups_namespace_collision :
    NEW_GROUPS_NAMESPACE = GROUPS_NAMESPACE := rfl

/-- Claim C6 (corrected): any two distinct declarations among the twelve
declared tables and indexes are bound to different namespace strings — so
writes to one can never be overwritten by or read back from another — with
exactly one exception, forced by the counterexample: the `NEW_GROUPS`
table of src/new_state.rs and the `GROUPS` table of src/state.rs share the
namespace `"groups"`. Stated as an exact characterisation: two distinct
declarations have equal namespaces precisely when they are that pair. -/
theorem c6_namespaces_disjoint_except_groups :
    ∀ t t' : TableDecl, t ≠ t' →
      (t.namespaceOf = t'.namespaceOf ↔
        (t = TableDecl.NEW_GROUPS ∧ t' = TableDecl.GROUPS) ∨
        (t = TableDecl.GROUPS ∧ t' = TableDecl.NEW_GROUPS)) := by
  decide

/-- Witness for C6: the amended claim applied at concrete declarations —
the `membership` primary table and the `memberships` table of the old
model are disjoint, and the one exceptional pair does collide. -/
theorem c6_namespaces_disjoint_except_groups_witness :
    TableDecl.MEMBERSHIP_PK.namespaceOf ≠ TableDecl.MEMBERSHIPS.namespaceOf ∧
    TableDecl.NEW_GROUPS.namespaceOf = TableDecl.GROUPS.namespaceOf :=
  ⟨fun h =>
    absurd
      ((c6_namespaces_disjoint_except_groups TableDecl.MEMBERSHIP_PK
        TableDecl.MEMBERSHIPS (by decide)).mp h)
      (by decide),
   (c6_namespaces_disjoint_except_groups TableDecl.NEW_GROUPS
     TableDecl.GROUPS (by decide)).mpr (Or.inl ⟨rfl, rfl⟩)⟩

/-- Claim C8 (confirmed): saving a record under a key in a table and then
loading that key from the same table returns the saved record — both for a
plain table (the `NEW_PEOPLE` map) and for the indexed membership store,
whose save writes the record to the primary table last. -/
theorem c8_round_trip :
    (∀ (people : KV NewPerson) (k : Bytes) (p : NewPerson),
      kvGet (kvSet people k p) k = some p) ∧
    (∀ (st : MsStore) (pk : Bytes) (d : NewMembership),
      kvGet (msSave st pk d).primary pk = some d) := by
  constructor
  · intro people k p
    exact kv_get_set people k p
  · intro st pk d
    show kvGet (kvSet _ pk d) pk = some d
    exact kv_get_set _ pk d

/-- Claim C9 (confirmed): `save_group` allocates the next counter
identifier (persisted counter plus one), stores the group in the group
table under exactly the `U64Key` of that identifier, and returns it, so a
load at the returned identifier yields the group; on the empty store the
first identifier is 1. -/
theorem c9_save_group :
    (∀ (st : GroupStore) (g : NewGroup),
      (save_group st g).1 = st.group_counter.getD 0 + 1 ∧
      (save_group st g).2.group_counter = some ((save_group st g).1) ∧
      kvGet (save_group st g).2.groups (u64_be ((save_group st g).1)) = some g) ∧
    ∀ g : NewGroup, (save_group ⟨none, []⟩ g).1 = 1 := by
  constructor
  · intro st g
    exact ⟨rfl, rfl, kv_get_set _ _ g⟩
  · intro g
    rfl

/-- Claim C10 (confirmed): on a stored `State`, `try_reset` with a sender
different from the owner returns the `Unauthorized` error and leaves the
stored state — both `count` and `owner` — unchanged; with the sender equal
to the owner it succeeds and stores the state with `count` set to the
given value and `owner` unchanged. -/
theorem c10_try_reset (sender : String) (count : Int) (st : State) :
    (sender ≠ st.owner →
      try_reset sender count (some st) =
        (Except.error ContractError.unauthorized, some st)) ∧
    (sender = st.owner →
      try_reset sender count (some st) =
        (Except.ok (), some { count := count, owner := st.owner })) := by
  constructor
  · intro h
    simp [try_reset, h]
  · intro h
    simp [try_reset, h]

/-- Witness for C10: both branches at concrete inputs — the stranger
`"anyone"` is rejected and the state kept, the owner `"creator"` resets
the count. -/
theorem c10_try_reset_witness :
    try_reset "anyone" 5 (some { count := 17, owner := "creator" }) =
      (Except.error ContractError.unauthorized,
       some { count := 17, owner := "creator" }) ∧
    try_reset "creator" 5 (some { count := 17, owner := "creator" }) =
      (Except.ok (), some { count := 5, owner := "creator" }) :=
  ⟨(c10_try_reset "anyone" 5 { count := 17, owner := "creator" }).1 (by decide),
   (c10_try_reset "creator" 5 { count := 17, owner := "creator" }).2 rfl⟩

/-- Claim C7 (confirmed): the key codec is injective — distinct `u64`
values yield distinct big-endian encodings and distinct roles distinct key
bytes; the fixed-width big-endian integer encoding makes byte-lexicographic
order coincide with numeric order; and the composed index key
(length-prefixed attribute value followed by the primary key) is
prefix-safe — with the fixed-width primary keys in use (equal lengths), no
composed key is a byte-prefix of a different logical key's encoding, and a
prefix scan over the length-prefixed attribute value matches exactly the
entries for that value (attribute values are below the 2-byte length-prefix
bound of 65536 bytes). -/
theorem c7_key_codec :
    (∀ a b : Nat, a < 2 ^ 64 → b < 2 ^ 64 → u64_be a = u64_be b → a = b) ∧
    (∀ a b : Nat, a < 2 ^ 64 → b < 2 ^ 64 →
      (bytesLt (u64_be a) (u64_be b) = true ↔ a < b)) ∧
    (∀ r r' : Role, Role.joined_key r = Role.joined_key r' → r = r') ∧
    (∀ v pk v' pk' : Bytes, v.length < 65536 → v'.length < 65536 →
      pk.length = pk'.length →
      pfxOf (idxKey v pk) (idxKey v' pk') = true → v = v' ∧ pk = pk') ∧
    (∀ v v' pk : Bytes, v.length < 65536 → v'.length < 65536 →
      (pfxOf (lenPfx v) (idxKey v' pk) = true ↔ v = v')) := by
  refine ⟨?_, ?_, ?_, ?_, ?_⟩
  · intro a b ha hb heq
    have h1 : beVal (u64_be a) = a := beVal_u64 a ha
    have h2 : beVal (u64_be b) = b := beVal_u64 b hb
    rw [heq] at h1
    omega
  · intro a b ha hb
    have hlen : (u64_be a).length = (u64_be b).length := rfl
    rw [bytesLt_iff_beVal (u64_be a) (u64_be b) hlen (u64_be_digits a) (u64_be_digits b),
      beVal_u64 a ha, beVal_u64 b hb]
  · intro r r' h
    cases r <;> cases r' <;> simp_all [Role.joined_key, Role.key]
  · intro v pk v' pk' hv hv' hlen hpfx
    obtain ⟨t, ht⟩ := (pfxOf_iff _ _).mp hpfx
    simp only [idxKey, lenPfx, List.cons_append, List.append_assoc,
      List.cons.injEq] at ht
    obtain ⟨h1, h2, h3⟩ := ht
    have hvlen : v.length = v'.length := by omega
    have hlen3 := congrArg List.length h3
    simp only [List.length_append] at hlen3
    have ht0 : t.length = 0 := by omega
    have ht' : t = [] := List.length_eq_zero.mp ht0
    subst ht'
    simp only [List.append_nil] at h3
    obtain ⟨hveq, hpkeq⟩ := List.append_inj h3 hvlen
    exact ⟨hveq, hpkeq⟩
  · intro v v' pk hv hv'
    constructor
    · intro h
      obtain ⟨t, ht⟩ := (pfxOf_iff _ _).mp h
      simp only [idxKey, lenPfx, List.cons_append, List.append_assoc,
        List.cons.injEq] at ht
      obtain ⟨h1, h2, h3⟩ := ht
      have hvlen : v.length = v'.length := by omega
      exact (List.append_inj h3 hvlen).1
    · rintro rfl
      show pfxOf (lenPfx v) (lenPfx v ++ pk) = true
      exact pfxOf_append (lenPfx v) pk

/-- Witness for C7: each clause applied at concrete inputs — the encodings
of 1 and 2 order correctly, `User`'s key is injective at itself, the
composed key of value `[3]` and primary key `[7]` is prefix-exact, and the
scan prefix of `[3]` matches its own composed key. -/
theorem c7_key_codec_witness :
    (1 : Nat) = 1 ∧
    bytesLt (u64_be 1) (u64_be 2) = true ∧
    Role.User = Role.User ∧
    (([3] : Bytes) = [3] ∧ ([7] : Bytes) = [7]) ∧
    pfxOf (lenPfx [3]) (idxKey [3] [7]) = true :=
  ⟨c7_key_codec.1 1 1 (by decide) (by decide) rfl,
   (c7_key_codec.2.1 1 2 (by decide) (by decide)).mpr (by decide),
   c7_key_codec.2.2.1 Role.User Role.User rfl,
   c7_key_codec.2.2.2.1 [3] [7] [3] [7] (by decide) (by decide) rfl (by decide),
   (c7_key_codec.2.2.2.2 [3] [3] [7] (by decide) (by decide)).mpr rfl⟩

end Cosmgroups
